import Mathlib

/-!
# Verification of the BOM2Pic Excel image-extraction core

A shallow embedding, in Lean 4, of the image-extraction core of the BOM2Pic
repository (`app/utils/excel_image_extractor.py` and
`app/services/image_processor.py`), together with theorems settling the
frozen behavioural claims about it.

Modelling conventions:
* Python strings are Lean `String`s; character-level operations work on
  `String.data : List Char` and use `Char.toNat` code points.
* Python `str.strip` / `str.upper` / `str.lower` are modelled on the ASCII
  range (the inputs relevant to the claims are ASCII; the Unicode-only
  behaviour of those Python methods is not exercised by any claim).
* Fallible Python code (raising `ValueError`) is modelled with
  `Except ExtractError`.
* XML trees, ZIP members and worksheet cells are modelled by explicit
  structures holding exactly the fields the extractor reads; optional XML
  attributes/elements are `Option`s, matching `ElementTree`'s
  `attrib.get` / `find` returning `None`.
-/

/-- Error kinds raised by the extraction core.  The Python code raises
`ValueError` with distinct messages; the spec names them `InvalidColumn`,
`MalformedPackage`, `TooManyImages`.  `valueError` stands for an
uncategorised `ValueError` (e.g. `int()` applied to a non-numeric string). -/
inductive ExtractError where
  | invalidColumn
  | malformedPackage
  | tooManyImages
  | valueError
  deriving DecidableEq, Repr

/-! ## ASCII character primitives (models of Python `str` methods) -/

/-- Code points Python's `str.strip()` removes (ASCII whitespace:
space, tab, newline, vertical tab, form feed, carriage return). -/
def isPyWhitespace (c : Char) : Bool :=
  decide (c.toNat = 32) || (decide (9 ≤ c.toNat) && decide (c.toNat ≤ 13))

/-- `c` is an ASCII uppercase letter `A`–`Z`. -/
def isUpperAlpha (c : Char) : Bool :=
  decide (65 ≤ c.toNat) && decide (c.toNat ≤ 90)

/-- `c` is an ASCII lowercase letter `a`–`z`. -/
def isLowerAlpha (c : Char) : Bool :=
  decide (97 ≤ c.toNat) && decide (c.toNat ≤ 122)

/-- `c` is an ASCII letter. -/
def isAsciiLetter (c : Char) : Bool :=
  isUpperAlpha c || isLowerAlpha c

/-- ASCII model of Python `str.upper` on a single character. -/
def pyToUpper (c : Char) : Char :=
  if isLowerAlpha c then Char.ofNat (c.toNat - 32) else c

/-- ASCII model of Python `str.lower` on a single character. -/
def pyToLower (c : Char) : Char :=
  if isUpperAlpha c then Char.ofNat (c.toNat + 32) else c

/-- Model of Python `str.strip()` on the character list. -/
def pyStripL (l : List Char) : List Char :=
  ((l.dropWhile isPyWhitespace).reverse.dropWhile isPyWhitespace).reverse

/-- Model of Python `str.strip()`. -/
def pyStrip (s : String) : String :=
  ⟨pyStripL s.data⟩

/-- Model of Python `str.upper()` (ASCII range). -/
def pyUpper (s : String) : String :=
  ⟨s.data.map pyToUpper⟩

/-! ## Column addressing (`column_letter_to_index`, source lines 48–50) -/

/-- Bijective base-26 value of a list of uppercase letters (`A`=1 … `Z`=26),
the accumulator form used by the standard column-name arithmetic. -/
def bijBase26 (l : List Char) : Nat :=
  l.foldl (fun acc c => acc * 26 + (c.toNat - 64)) 0

/-- Model of `openpyxl.utils.column_index_from_string`: the library accepts
exactly the strings `"A"`–`"ZZZ"` (one to three uppercase ASCII letters,
looked up in a cache built for columns 1–18278) and raises `ValueError`
otherwise (surfaced by the spec as `InvalidColumn`). -/
def column_index_from_string (s : String) : Except ExtractError Nat :=
  let l := s.data
  if 1 ≤ l.length ∧ l.length ≤ 3 ∧ l.all isUpperAlpha then
    .ok (bijBase26 l)
  else
    .error .invalidColumn

/-- Model of `column_letter_to_index` (source lines 48–50):
`column_index_from_string(letter.strip().upper()) - 1`. -/
def column_letter_to_index (letter : String) : Except ExtractError Nat :=
  (column_index_from_string (pyUpper (pyStrip letter))).map (· - 1)

/-- Modelled from the spec: the inverse of the standard bijective base-26
column-naming scheme — the base-26 value (A=1) of the letters, case
insensitively, minus 1. -/
def standardColumnIndex (s : String) : Nat :=
  bijBase26 (s.data.map pyToUpper) - 1

deriving instance DecidableEq for Except

/-! ## POSIX path manipulation (models of `posixpath` used by the source) -/

/-- Model of CPython `posixpath.dirname` on the character list: everything up
to (excluding) the final `/`, with trailing slashes stripped unless the head
consists of slashes only. -/
def posixDirnameL (p : List Char) : List Char :=
  let revHead := p.reverse.dropWhile (fun c => !decide (c = '/'))
  if revHead.isEmpty then []
  else if revHead.all (fun c => decide (c = '/')) then revHead.reverse
  else (revHead.dropWhile (fun c => decide (c = '/'))).reverse

/-- Model of `posixpath.dirname`. -/
def posixDirname (p : String) : String :=
  ⟨posixDirnameL p.data⟩

/-- Model of `posixpath.join` for two arguments: an absolute second argument
replaces the first; otherwise concatenate, inserting `/` unless the first
part is empty or already ends in `/`. -/
def posixJoin (a b : String) : String :=
  if b.data.head? = some '/' then b
  else if a.data.isEmpty || a.data.getLast? = some '/' then ⟨a.data ++ b.data⟩
  else ⟨a.data ++ '/' :: b.data⟩

/-- Split a character list on `/` (model of Python `str.split("/")`). -/
def splitSlash : List Char → List (List Char)
  | [] => [[]]
  | c :: rest =>
    match splitSlash rest with
    | [] => [[]]
    | comp :: comps =>
      if c = '/' then [] :: comp :: comps else (c :: comp) :: comps

/-- One step of CPython `posixpath.normpath`'s component loop.  `acc` is the
`new_comps` list in reverse. -/
def normStep (initSlash : Bool) (acc : List (List Char)) (comp : List Char) :
    List (List Char) :=
  if comp = [] ∨ comp = ['.'] then acc
  else if comp ≠ ['.', '.'] ∨ (¬ initSlash ∧ acc = []) ∨ acc.head? = some ['.', '.'] then
    comp :: acc
  else
    match acc with
    | [] => []
    | _ :: t => t

/-- Model of CPython `posixpath.normpath` on the character list. -/
def posixNormpathL (p : List Char) : List Char :=
  if p = [] then ['.']
  else
    let initSlash : Nat :=
      if p.head? = some '/' then
        if p.take 2 = ['/', '/'] ∧ p.take 3 ≠ ['/', '/', '/'] then 2 else 1
      else 0
    let comps := splitSlash p
    let newComps := (comps.foldl (normStep (initSlash ≠ 0)) []).reverse
    let path := List.replicate initSlash '/' ++ List.intercalate ['/'] newComps
    if path = [] then ['.'] else path

/-- Model of `posixpath.normpath`. -/
def posixNormpath (p : String) : String :=
  ⟨posixNormpathL p.data⟩

/-- Model of `_resolve_rel_target` (source lines 53–62): resolve a
relationship `Target` against the directory two levels up from the rels
file, `posixpath.normpath(posixpath.join(dirname(dirname(rels_path)), target))`. -/
def _resolve_rel_target (rels_file_path : String) (target : String) : String :=
  posixNormpath (posixJoin (posixDirname (posixDirname rels_file_path)) target)

/-! ## Filename sanitation (`ImageProcessor.normalize`, image_processor.py 45–53) -/

/-- The characters removed by `re.sub(r"[\\/:*?\"<>|]+", "", n)`. -/
def isIllegalChar (c : Char) : Bool :=
  decide (c = '\\') || decide (c = '/') || decide (c = ':') || decide (c = '*') ||
  decide (c = '?') || decide (c = '\"') || decide (c = '<') || decide (c = '>') ||
  decide (c = '|')

/-- Model of `re.sub(r"_+", "_", n)`: collapse each run of underscores to a
single underscore.  The flag records whether the previous character kept was
part of an underscore run. -/
def collapseAux : Bool → List Char → List Char
  | _, [] => []
  | prevU, c :: rest =>
    if c = '_' then
      if prevU then collapseAux true rest else '_' :: collapseAux true rest
    else c :: collapseAux false rest

/-- Collapse runs of underscores (model of `re.sub(r"_+", "_", n)`). -/
def collapseUnderscores (l : List Char) : List Char :=
  collapseAux false l

/-- Model of `ImageProcessor.normalize` (image_processor.py lines 45–53):
strip, replace spaces with underscores, delete the illegal filename
characters, collapse underscore runs, lowercase, truncate to 80 characters,
and fall back to `"image"` when the result is empty. -/
def ImageProcessor.normalize (name : String) : String :=
  let n := pyStripL name.data
  let n := n.map (fun c => if c = ' ' then '_' else c)
  let n := n.filter (fun c => !isIllegalChar c)
  let n := collapseUnderscores n
  let n := n.map pyToLower
  let n := n.take 80
  if n.isEmpty then "image" else ⟨n⟩

/-! ## Worksheet → drawing navigation (`_find_drawing_for_sheet`, 108–130) -/

/-- A `<Relationship>` element of a `.rels` part: the `Id` and `Target`
attributes as `ElementTree` returns them (`attrib.get`, `None` if absent). -/
structure Relationship where
  id : Option String
  target : Option String
  deriving DecidableEq, Repr

/-- The data `_find_drawing_for_sheet` reads from a worksheet XML part: the
optional `<drawing>` element, and — when present — its optional `r:id`
attribute. -/
structure WorksheetXml where
  drawingRId : Option (Option String)
  deriving DecidableEq, Repr

/-- The relationship scan inside `_find_drawing_for_sheet` (lines 124–130):
first `<Relationship>` whose `Id` equals `rid` and whose `Target` is truthy
wins; a matching entry with a missing or empty `Target` is skipped
(`continue`); if no entry matches, the function returns `None`. -/
def findDrawingRel (sheet_rels_path : String) (rid : String) :
    List Relationship → Option String
  | [] => none
  | rel :: rest =>
    if rel.id = some rid then
      match rel.target with
      | some t =>
        if t = "" then findDrawingRel sheet_rels_path rid rest
        else some (_resolve_rel_target sheet_rels_path t)
      | none => findDrawingRel sheet_rels_path rid rest
    else findDrawingRel sheet_rels_path rid rest

/-- Model of `_find_drawing_for_sheet` (source lines 108–130).
`relsPresent` models `sheet_rels in zf.namelist()`; `sheet` is the parsed
worksheet XML; `rels` the parsed relationship list of the sheet's rels part.
The function's return type is `Option String`: it has no failure channel —
every fall-through returns `None`. -/
def _find_drawing_for_sheet (relsPresent : Bool) (sheet : WorksheetXml)
    (rels : List Relationship) (sheet_rels_path : String) : Option String :=
  if !relsPresent then none
  else
    match sheet.drawingRId with
    | none => none
    | some none => none
    | some (some rid) => findDrawingRel sheet_rels_path rid rels

/-! ## Drawing anchor parsing (`_parse_anchored_images`, 150–187) -/

/-- Model of Python `int()` applied to a string: strip whitespace, optional
sign, then a nonempty run of decimal digits; anything else raises
`ValueError` (underscore digit grouping is not modelled — no claim uses it). -/
def pyInt (s : String) : Option Int :=
  let t := pyStripL s.data
  let signDigits : Int × List Char :=
    match t with
    | '-' :: rest => (-1, rest)
    | '+' :: rest => (1, rest)
    | _ => (1, t)
  let digits := signDigits.2
  if digits ≠ [] ∧ digits.all (fun c => decide (48 ≤ c.toNat) && decide (c.toNat ≤ 57)) then
    some (signDigits.1 * (digits.foldl (fun a c => a * 10 + (c.toNat - 48)) 0 : Nat))
  else none

/-- The two cell-anchor element kinds of an OOXML drawing. -/
inductive AnchorKind where
  | twoCell
  | oneCell
  deriving DecidableEq, Repr

/-- The `<xdr:from>` child of an anchor: the text of its optional
`<xdr:col>` and `<xdr:row>` children (`findtext` with default `"0"`). -/
structure FromNode where
  col : Option String
  row : Option String
  deriving DecidableEq, Repr

/-- The `<xdr:pic>` child of an anchor: `blipEmbed = none` models a missing
`<xdr:blipFill>/<a:blip>` element; `some none` a blip without an `r:embed`
attribute; `some (some e)` a blip with `r:embed = e`. -/
structure PicNode where
  blipEmbed : Option (Option String)
  deriving DecidableEq, Repr

/-- One anchor element of the drawing XML, in document order, with its kind
and its optional `<xdr:from>` / `<xdr:pic>` children. -/
structure AnchorNode where
  kind : AnchorKind
  fromEl : Option FromNode
  pic : Option PicNode
  deriving DecidableEq, Repr

/-- The drawing XML part: its anchor elements in document order. -/
structure DrawingXml where
  anchors : List AnchorNode
  deriving DecidableEq, Repr

/-- The per-anchor body of both loops of `_parse_anchored_images` (the two
loop bodies are identical, lines 156–169 and 172–185): skip (`continue`,
i.e. `ok none`) when `from`, `pic`, the blip or its `r:embed` attribute is
missing; otherwise convert the `col`/`row` texts (default `"0"`) with
`int()`, which raises on non-numeric text. -/
def parseAnchorNode (node : AnchorNode) :
    Except ExtractError (Option (Int × Int × String)) :=
  match node.fromEl, node.pic with
  | some f, some p =>
    match p.blipEmbed with
    | none => .ok none
    | some none => .ok none
    | some (some e) =>
      match pyInt (f.row.getD "0"), pyInt (f.col.getD "0") with
      | some r, some c => .ok (some (r, c, e))
      | _, _ => .error .valueError
  | _, _ => .ok none

/-- Sequentially process a list of anchor nodes, accumulating the produced
`(row, col, r:embed)` triples and propagating the first `int()` failure. -/
def parsePass : List AnchorNode → Except ExtractError (List (Int × Int × String))
  | [] => .ok []
  | node :: rest => do
    let head ← parseAnchorNode node
    let tail ← parsePass rest
    match head with
    | some t => return t :: tail
    | none => return tail

/-- Model of `_parse_anchored_images` (source lines 150–187): first a full
pass over every `<xdr:twoCellAnchor>`, then a full pass over every
`<xdr:oneCellAnchor>`, results concatenated in that order. -/
def _parse_anchored_images (d : DrawingXml) :
    Except ExtractError (List (Int × Int × String)) := do
  let two ← parsePass (d.anchors.filter (fun a => a.kind = .twoCell))
  let one ← parsePass (d.anchors.filter (fun a => a.kind = .oneCell))
  return two ++ one

/-- Modelled from the spec: processing every anchor element of the drawing
in document order, both kinds interleaved as they appear in the XML. -/
def parseAnchorsDocumentOrder (d : DrawingXml) :
    Except ExtractError (List (Int × Int × String)) :=
  parsePass d.anchors

/-! ## The Image/Name joiner (`extract_images_details`, source lines 270–318)

The joiner is modelled from the point where the drawing part has been
located and read: its inputs are the parsed drawing XML, the drawing's
relationship map (`_map_drawing_relations`), the worksheet cell values as
`openpyxl` exposes them, and the package's media blobs.  The package
navigation up to that point (`_get_first_sheet_paths`,
`_find_drawing_for_sheet`) is modelled separately above. -/

/-- An image placement discovered in the drawing layer (source lines 26–30):
zero-based `row`/`col` of the anchor's `from` cell and the resolved package
path of the image blob. -/
structure AnchoredImage where
  row : Int
  col : Int
  media_path : String
  deriving DecidableEq, Repr

/-- The first worksheet as the joiner reads it through `openpyxl`:
`title` is `ws.title`; `cells r c` is `ws.cell(row=r, column=c).value`
(1-based coordinates), where `none` models a Python `None` cell value and
`some s` models a non-`None` value whose `str()` form is `s`. -/
structure SheetData where
  title : String
  cells : Int → Int → Option String

/-- The joined output record (source lines 33–45): 1-based row, worksheet
title, the raw name string, and the unmodified image bytes. -/
structure ExtractedImageDetail where
  row : Int
  sheet : String
  name_raw : String
  image_bytes : List Nat
  deriving DecidableEq, Repr

/-- The join step (source lines 298–302): keep each parsed anchor whose
`r:embed` id is present in the drawing's relationship map, pairing it with
the resolved media path. -/
def buildAnchoredImages (anchors : List (Int × Int × String))
    (relMap : String → Option String) : List AnchoredImage :=
  anchors.filterMap (fun t =>
    (relMap t.2.2).map (fun mp => AnchoredImage.mk t.1 t.2.1 mp))

/-- Stable insertion of an anchored image into a row-sorted list: walk past
strictly smaller rows, so the inserted element lands before every element
with an equal row. -/
def insertByRow (x : AnchoredImage) : List AnchoredImage → List AnchoredImage
  | [] => [x]
  | y :: ys => if y.row < x.row then y :: insertByRow x ys else x :: y :: ys

/-- Model of `filtered.sort(key=lambda x: x.row)` (source line 305): Python's
`list.sort` is a stable sort by the key, and the stable sort of a list is
unique, so it equals this stable insertion sort by `row`. -/
def sortByRow : List AnchoredImage → List AnchoredImage
  | [] => []
  | x :: xs => insertByRow x (sortByRow xs)

/-- The cap test of source line 315, `max_images and max_images > 0 and
len(results) > max_images`: `max_images` must be truthy (not `None`, not 0),
positive, and strictly exceeded by the result count. -/
def capExceeded (max_images : Option Int) (count : Nat) : Bool :=
  match max_images with
  | none => false
  | some m => decide (m ≠ 0) && decide (0 < m) && decide (m < (count : Int))

/-- Build one output record (source lines 309–313): 1-based row, the name
cell's `str()` form when the cell value is not `None`, otherwise the
synthesized `image_row<N>` fallback, and the raw media bytes. -/
def mkDetail (sheet : SheetData) (name_col_idx : Nat)
    (media : String → List Nat) (ai : AnchoredImage) : ExtractedImageDetail :=
  let row_number := ai.row + 1
  let name_raw :=
    match sheet.cells row_number ((name_col_idx : Int) + 1) with
    | some v => v
    | none => "image_row" ++ toString row_number
  ⟨row_number, sheet.title, name_raw, media ai.media_path⟩

/-- The result loop of source lines 307–316: append the record for each
anchored image, and raise `TooManyImages` as soon as the appended list's
length exceeds a positive cap. -/
def joinLoop (max_images : Option Int)
    (mk : AnchoredImage → ExtractedImageDetail) :
    List AnchoredImage → List ExtractedImageDetail →
    Except ExtractError (List ExtractedImageDetail)
  | [], results => .ok results
  | ai :: rest, results =>
    let results' := results ++ [mk ai]
    if capExceeded max_images results'.length then .error .tooManyImages
    else joinLoop max_images mk rest results'

/-- Model of `extract_images_details` (source lines 270–318) from the point
where the drawing part is in hand: resolve both column letters, parse the
anchors, join with the relationship map, filter to the image column, sort
stably by row, and run the capped result loop. -/
def extract_images_details (sheet : SheetData) (drawing : DrawingXml)
    (relMap : String → Option String) (media : String → List Nat)
    (image_col_letter name_col_letter : String) (max_images : Option Int) :
    Except ExtractError (List ExtractedImageDetail) := do
  let img_col_idx ← column_letter_to_index image_col_letter
  let name_col_idx ← column_letter_to_index name_col_letter
  let anchors ← _parse_anchored_images drawing
  let anchored := buildAnchoredImages anchors relMap
  let filtered := anchored.filter (fun ai => decide (ai.col = (img_col_idx : Int)))
  let sorted := sortByRow filtered
  joinLoop max_images (mkDetail sheet name_col_idx media) sorted []

/-! ## Concrete example fixtures used by claim witnesses and counterexamples -/

/-- Example worksheet: the name column C (1-based column 3) holds `"Widget"`
at row 3 and is empty (`None`) elsewhere. -/
def exampleSheet : SheetData :=
  ⟨"Sheet1", fun r c => if r = 3 ∧ c = 3 then some "Widget" else none⟩

/-- Example drawing: two-cell picture anchors in column B (zero-based 1) at
zero-based rows 2 and 6, plus one in column D (zero-based 3) at zero-based
row 4 — i.e. Excel rows 3, 7 and 5. -/
def exampleDrawing : DrawingXml :=
  ⟨[⟨.twoCell, some ⟨some "1", some "2"⟩, some ⟨some (some "rId1")⟩⟩,
    ⟨.twoCell, some ⟨some "3", some "4"⟩, some ⟨some (some "rId2")⟩⟩,
    ⟨.twoCell, some ⟨some "1", some "6"⟩, some ⟨some (some "rId3")⟩⟩]⟩

/-- Example drawing with three picture anchors, all in column B, at
zero-based rows 2, 4 and 6 (Excel rows 3, 5 and 7). -/
def exampleDrawingB3 : DrawingXml :=
  ⟨[⟨.twoCell, some ⟨some "1", some "2"⟩, some ⟨some (some "rId1")⟩⟩,
    ⟨.twoCell, some ⟨some "1", some "4"⟩, some ⟨some (some "rId2")⟩⟩,
    ⟨.twoCell, some ⟨some "1", some "6"⟩, some ⟨some (some "rId3")⟩⟩]⟩

/-- Example drawing relationship map (`_map_drawing_relations` result). -/
def exampleRelMap : String → Option String := fun e =>
  if e = "rId1" then some "xl/media/image1.png"
  else if e = "rId2" then some "xl/media/image2.png"
  else if e = "rId3" then some "xl/media/image3.png"
  else none

/-- Example media blobs of the package. -/
def exampleMedia : String → List Nat := fun p =>
  if p = "xl/media/image1.png" then [1]
  else if p = "xl/media/image2.png" then [2]
  else if p = "xl/media/image3.png" then [3]
  else []

/-- The anchor triples parsed from `exampleDrawing`. -/
def exampleAnchors : List (Int × Int × String) :=
  [(2, 1, "rId1"), (4, 3, "rId2"), (6, 1, "rId3")]

/-- The anchor triples parsed from `exampleDrawingB3`. -/
def exampleAnchorsB3 : List (Int × Int × String) :=
  [(2, 1, "rId1"), (4, 1, "rId2"), (6, 1, "rId3")]

/-! ## Helper lemmas: characters and Python string primitives -/

theorem char_toNat_ofNat {n : Nat} (h : n < 55296) : (Char.ofNat n).toNat = n := by
  have hv : n.isValidChar := by unfold Nat.isValidChar; omega
  simp only [Char.ofNat, hv, dite_true, Char.toNat, Char.ofNatAux, UInt32.ofNat', UInt32.toNat]
  rfl

theorem char_eq_of_toNat_eq {a b : Char} (h : a.toNat = b.toNat) : a = b :=
  Char.eq_of_val_eq (UInt32.ext h)

theorem string_data_append (s t : String) : (s ++ t).data = s.data ++ t.data := rfl

theorem isUpperAlpha_iff {c : Char} :
    isUpperAlpha c = true ↔ 65 ≤ c.toNat ∧ c.toNat ≤ 90 := by
  simp [isUpperAlpha, decide_eq_true_eq]

theorem isLowerAlpha_iff {c : Char} :
    isLowerAlpha c = true ↔ 97 ≤ c.toNat ∧ c.toNat ≤ 122 := by
  simp [isLowerAlpha, decide_eq_true_eq]

theorem isAsciiLetter_iff {c : Char} :
    isAsciiLetter c = true ↔
      (65 ≤ c.toNat ∧ c.toNat ≤ 90) ∨ (97 ≤ c.toNat ∧ c.toNat ≤ 122) := by
  simp [isAsciiLetter, isUpperAlpha_iff, isLowerAlpha_iff]

theorem pyToUpper_toNat_of_lower {c : Char} (h : isLowerAlpha c = true) :
    (pyToUpper c).toNat = c.toNat - 32 := by
  have hb := isLowerAlpha_iff.mp h
  unfold pyToUpper
  rw [if_pos h, char_toNat_ofNat (by omega)]

theorem pyToUpper_of_not_lower {c : Char} (h : isLowerAlpha c = false) :
    pyToUpper c = c := by
  unfold pyToUpper
  rw [if_neg (by simp [h])]

theorem pyToLower_toNat_of_upper {c : Char} (h : isUpperAlpha c = true) :
    (pyToLower c).toNat = c.toNat + 32 := by
  have hb := isUpperAlpha_iff.mp h
  unfold pyToLower
  rw [if_pos h, char_toNat_ofNat (by omega)]

theorem pyToLower_of_not_upper {c : Char} (h : isUpperAlpha c = false) :
    pyToLower c = c := by
  unfold pyToLower
  rw [if_neg (by simp [h])]

theorem pyToUpper_upper {c : Char} (h : isAsciiLetter c = true) :
    isUpperAlpha (pyToUpper c) = true := by
  rcases isAsciiLetter_iff.mp h with hu | hl
  · have hlow : isLowerAlpha c = false := by
      rw [Bool.eq_false_iff]
      intro hc
      rcases isLowerAlpha_iff.mp hc with ⟨h1, _⟩
      omega
    rw [pyToUpper_of_not_lower hlow]
    exact isUpperAlpha_iff.mpr hu
  · rw [isUpperAlpha_iff, pyToUpper_toNat_of_lower (isLowerAlpha_iff.mpr hl)]
    omega

theorem letter_not_whitespace {c : Char} (h : isAsciiLetter c = true) :
    isPyWhitespace c = false := by
  rcases isAsciiLetter_iff.mp h with hu | hl <;>
  · rw [Bool.eq_false_iff]
    intro hc
    unfold isPyWhitespace at hc
    rcases Bool.or_eq_true_iff.mp hc with h1 | h1
    · rw [decide_eq_true_eq] at h1
      omega
    · rcases Bool.and_eq_true_iff.mp h1 with ⟨h2, h3⟩
      rw [decide_eq_true_eq] at h2 h3
      omega

theorem dropWhile_eq_self_of_all {p : α → Bool} {l : List α}
    (h : ∀ a ∈ l, p a = false) : l.dropWhile p = l := by
  cases l with
  | nil => rfl
  | cons a t =>
    rw [List.dropWhile_cons, h a (List.mem_cons_self a t)]
    simp

theorem pyStripL_eq_self {l : List Char} (h : ∀ c ∈ l, isPyWhitespace c = false) :
    pyStripL l = l := by
  unfold pyStripL
  rw [dropWhile_eq_self_of_all h, dropWhile_eq_self_of_all (by
    intro c hc
    exact h c (List.mem_reverse.mp hc)), List.reverse_reverse]

/-! ## Helper lemmas for filename sanitation -/

theorem pyToLower_not_upper (c : Char) : isUpperAlpha (pyToLower c) = false := by
  by_cases hu : isUpperAlpha c = true
  · rw [Bool.eq_false_iff]
    intro hx
    have hb2 := isUpperAlpha_iff.mp hx
    rw [pyToLower_toNat_of_upper hu] at hb2
    have hb := isUpperAlpha_iff.mp hu
    omega
  · rw [pyToLower_of_not_upper ((Bool.not_eq_true _) ▸ hu)]
    exact (Bool.not_eq_true _) ▸ hu

theorem pyToLower_ne_of_code {c : Char} {d : Char} (hd : d.toNat < 97 ∨ 122 < d.toNat)
    (hne : ¬ c = d) : ¬ pyToLower c = d := by
  intro h
  by_cases hu : isUpperAlpha c = true
  · have ht := pyToLower_toNat_of_upper hu
    have hb := isUpperAlpha_iff.mp hu
    have := congrArg Char.toNat h
    omega
  · rw [pyToLower_of_not_upper ((Bool.not_eq_true _) ▸ hu)] at h
    exact hne h

theorem isIllegalChar_pyToLower {c : Char} (h : isIllegalChar c = false) :
    isIllegalChar (pyToLower c) = false := by
  by_cases hu : isUpperAlpha c = true
  · have ht := pyToLower_toNat_of_upper hu
    have hb := isUpperAlpha_iff.mp hu
    have h1 : 97 ≤ (pyToLower c).toNat := by omega
    have h2 : (pyToLower c).toNat ≤ 122 := by omega
    rw [Bool.eq_false_iff]
    intro hx
    unfold isIllegalChar at hx
    simp only [Bool.or_eq_true, decide_eq_true_eq] at hx
    rcases hx with ((((((((he|he)|he)|he)|he)|he)|he)|he)|he) <;>
    · rw [he] at h1 h2
      revert h1 h2
      decide
  · rwa [pyToLower_of_not_upper ((Bool.not_eq_true _) ▸ hu)]

theorem mem_collapseAux {a : Char} (b : Bool) (l : List Char)
    (h : a ∈ collapseAux b l) : a ∈ l := by
  induction l generalizing b with
  | nil => simp [collapseAux] at h
  | cons c rest ih =>
    by_cases hc : c = '_'
    · cases b with
      | true =>
        simp only [collapseAux, hc, if_pos rfl, if_pos] at h
        exact List.mem_cons_of_mem _ (ih _ h)
      | false =>
        simp only [collapseAux, hc, if_pos rfl] at h
        rcases List.mem_cons.mp h with h1 | h1
        · rw [hc, h1]
          exact List.mem_cons_self _ _
        · exact List.mem_cons_of_mem _ (ih _ h1)
    · simp only [collapseAux, if_neg hc] at h
      rcases List.mem_cons.mp h with h1 | h1
      · rw [h1]
        exact List.mem_cons_self _ _
      · exact List.mem_cons_of_mem _ (ih _ h1)

theorem collapseAux_noDouble (l : List Char) :
    List.Chain' (fun a b => ¬(a = '_' ∧ b = '_')) (collapseAux false l) ∧
    List.Chain' (fun a b => ¬(a = '_' ∧ b = '_')) (collapseAux true l) ∧
    ∀ c, (collapseAux true l).head? = some c → ¬ c = '_' := by
  induction l with
  | nil => exact ⟨List.chain'_nil, List.chain'_nil, by intro c h; simp [collapseAux] at h⟩
  | cons c rest ih =>
    obtain ⟨ih1, ih2, ih3⟩ := ih
    by_cases hc : c = '_'
    · refine ⟨?_, ?_, ?_⟩
      · show List.Chain' _ (collapseAux false (c :: rest))
        simp only [collapseAux, hc, if_pos rfl]
        exact List.chain'_cons'.mpr
          ⟨fun b hb => fun ⟨_, hb2⟩ => ih3 b hb hb2, ih2⟩
      · show List.Chain' _ (collapseAux true (c :: rest))
        simp only [collapseAux, hc, if_pos rfl]
        exact ih2
      · intro d hd
        simp only [collapseAux, hc, if_pos rfl] at hd
        exact ih3 d hd
    · refine ⟨?_, ?_, ?_⟩
      · show List.Chain' _ (collapseAux false (c :: rest))
        simp only [collapseAux, if_neg hc]
        exact List.chain'_cons'.mpr ⟨fun b _ => fun ⟨hb1, _⟩ => hc hb1, ih1⟩
      · show List.Chain' _ (collapseAux true (c :: rest))
        simp only [collapseAux, if_neg hc]
        exact List.chain'_cons'.mpr ⟨fun b _ => fun ⟨hb1, _⟩ => hc hb1, ih1⟩
      · intro d hd
        simp only [collapseAux, if_neg hc, List.head?_cons, Option.some.injEq] at hd
        rw [← hd]
        exact hc

/-! ## Claim C4: locating the drawing for a worksheet -/

theorem findDrawingRel_none_of_no_match (path rid : String)
    (rels : List Relationship) (h : ∀ rel ∈ rels, rel.id ≠ some rid) :
    findDrawingRel path rid rels = none := by
  induction rels with
  | nil => rfl
  | cons rel rest ih =>
    unfold findDrawingRel
    rw [if_neg (h rel (List.mem_cons_self rel rest))]
    exact ih (fun r hr => h r (List.mem_cons_of_mem rel hr))

/-- **C4 counterexample**: with a worksheet whose `<drawing>` element carries
`r:id = "rId1"`, a present rels part containing no matching relationship,
the claim demands a `MalformedPackage` failure; but `_find_drawing_for_sheet`
has no failure channel at all (its Python body contains no `raise`) and
returns `None`, which callers treat as “no images”. -/
theorem find_drawing_no_match_returns_none :
    _find_drawing_for_sheet true ⟨some (some "rId1")⟩ []
      "xl/worksheets/_rels/sheet1.xml.rels" = none := by
  decide

/-- **C4 amended** (corrected).  `findDrawingForSheet` returns none (not an
error) when the worksheet XML has no drawing element, and **also returns
none — it never fails** — when the drawing element exists but no matching
relationship for its id is found in the worksheet's rels file. -/
theorem find_drawing_for_sheet_none (relsPresent : Bool) (sheet : WorksheetXml)
    (rels : List Relationship) (path rid : String) :
    (sheet.drawingRId = none →
      _find_drawing_for_sheet relsPresent sheet rels path = none) ∧
    (sheet.drawingRId = some (some rid) →
      (∀ rel ∈ rels, rel.id ≠ some rid) →
      _find_drawing_for_sheet relsPresent sheet rels path = none) := by
  constructor
  · intro hnone
    unfold _find_drawing_for_sheet
    rw [hnone]
    cases relsPresent <;> rfl
  · intro hsome hnomatch
    unfold _find_drawing_for_sheet
    rw [hsome]
    cases relsPresent
    · rfl
    · simpa using findDrawingRel_none_of_no_match path rid rels hnomatch

/-- **C4 amended witness**: the amended theorem applied to a concrete
package: a sheet with drawing id `"rId1"` and a rels list whose only entry
has id `"rId9"`. -/
theorem find_drawing_for_sheet_none_witness :
    _find_drawing_for_sheet true ⟨some (some "rId1")⟩
      [⟨some "rId9", some "../drawings/drawing1.xml"⟩]
      "xl/worksheets/_rels/sheet1.xml.rels" = none :=
  (find_drawing_for_sheet_none true ⟨some (some "rId1")⟩
      [⟨some "rId9", some "../drawings/drawing1.xml"⟩]
      "xl/worksheets/_rels/sheet1.xml.rels" "rId1").2 rfl
    (by decide)

/-! ## Claims C5 and C10: drawing anchor parsing -/

theorem parsePass_cons (node : AnchorNode) (rest : List AnchorNode) :
    parsePass (node :: rest) = do
      let head ← parseAnchorNode node
      let tail ← parsePass rest
      match head with
      | some t => return t :: tail
      | none => return tail := rfl

theorem parsePass_append (a b : List AnchorNode) :
    parsePass (a ++ b) = do
      let x ← parsePass a
      let y ← parsePass b
      return x ++ y := by
  induction a with
  | nil =>
    rw [List.nil_append]
    show parsePass b = _
    cases parsePass b <;> rfl
  | cons node rest ih =>
    rw [List.cons_append, parsePass_cons, parsePass_cons, ih]
    cases parseAnchorNode node with
    | error e => rfl
    | ok head =>
      cases parsePass rest with
      | error e => cases head <;> rfl
      | ok tail =>
        cases parsePass b with
        | error e => cases head <;> rfl
        | ok tb =>
          cases head with
          | none => rfl
          | some t =>
            show Except.ok (t :: (tail ++ tb))
              = (Except.ok ((t :: tail) ++ tb) : Except ExtractError (List (Int × Int × String)))
            rw [List.cons_append]

/-- **C5 counterexample**: a drawing whose document order interleaves the two
anchor kinds — a one-cell anchor (row 5) **before** a two-cell anchor
(row 3).  The code processes all two-cell anchors first, so its output lists
the two-cell triple first, which differs from the document-order
processing of the same anchors. -/
theorem parse_anchored_images_not_document_order :
    _parse_anchored_images ⟨[⟨.oneCell, some ⟨some "1", some "5"⟩, some ⟨some (some "rId1")⟩⟩,
                             ⟨.twoCell, some ⟨some "1", some "3"⟩, some ⟨some (some "rId2")⟩⟩]⟩
      = .ok [(3, 1, "rId2"), (5, 1, "rId1")] ∧
    parseAnchorsDocumentOrder ⟨[⟨.oneCell, some ⟨some "1", some "5"⟩, some ⟨some (some "rId1")⟩⟩,
                                ⟨.twoCell, some ⟨some "1", some "3"⟩, some ⟨some (some "rId2")⟩⟩]⟩
      = .ok [(5, 1, "rId1"), (3, 1, "rId2")] ∧
    _parse_anchored_images ⟨[⟨.oneCell, some ⟨some "1", some "5"⟩, some ⟨some (some "rId1")⟩⟩,
                             ⟨.twoCell, some ⟨some "1", some "3"⟩, some ⟨some (some "rId2")⟩⟩]⟩
      ≠ parseAnchorsDocumentOrder ⟨[⟨.oneCell, some ⟨some "1", some "5"⟩, some ⟨some (some "rId1")⟩⟩,
                                    ⟨.twoCell, some ⟨some "1", some "3"⟩, some ⟨some (some "rId2")⟩⟩]⟩ := by
  refine ⟨by decide, by decide, by decide⟩

/-- **C5 amended** (corrected).  `parseAnchors` returns one `(row, col,
relationshipId)` triple per picture anchor of either kind and skips anchors
without a resolvable picture/blip element without raising; but the order of
the returned triples is **not** document order of the anchor elements: it is
document order of the two-cell anchors followed by document order of the
one-cell anchors (the code runs two separate passes). -/
theorem parse_anchored_images_two_passes (d : DrawingXml) (node : AnchorNode) :
    _parse_anchored_images d
      = parseAnchorsDocumentOrder ⟨d.anchors.filter (fun a => a.kind = .twoCell)
          ++ d.anchors.filter (fun a => a.kind = .oneCell)⟩ ∧
    (node.pic = none ∨ node.fromEl = none ∨ node.pic = some ⟨none⟩ ∨
        node.pic = some ⟨some none⟩ →
      parseAnchorNode node = .ok none) := by
  constructor
  · rw [parseAnchorsDocumentOrder, parsePass_append]
    rfl
  · rintro (h | h | h | h)
    · unfold parseAnchorNode
      rw [h]
      cases node.fromEl <;> rfl
    · unfold parseAnchorNode
      rw [h]
    · unfold parseAnchorNode
      rw [h]
      cases node.fromEl <;> rfl
    · unfold parseAnchorNode
      rw [h]
      cases node.fromEl <;> rfl

/-- **C5 amended witness**: the amended theorem applied to the interleaved
two-anchor drawing and a blip-less anchor node. -/
theorem parse_anchored_images_two_passes_witness :
    (_parse_anchored_images ⟨[⟨.oneCell, some ⟨some "1", some "5"⟩, some ⟨some (some "rId1")⟩⟩,
                              ⟨.twoCell, some ⟨some "1", some "3"⟩, some ⟨some (some "rId2")⟩⟩]⟩
      = parseAnchorsDocumentOrder ⟨([⟨.oneCell, some ⟨some "1", some "5"⟩, some ⟨some (some "rId1")⟩⟩,
          ⟨.twoCell, some ⟨some "1", some "3"⟩, some ⟨some (some "rId2")⟩⟩] : List AnchorNode).filter (fun a => a.kind = .twoCell)
          ++ ([⟨.oneCell, some ⟨some "1", some "5"⟩, some ⟨some (some "rId1")⟩⟩,
          ⟨.twoCell, some ⟨some "1", some "3"⟩, some ⟨some (some "rId2")⟩⟩] : List AnchorNode).filter (fun a => a.kind = .oneCell)⟩) ∧
    parseAnchorNode ⟨.twoCell, some ⟨some "1", some "3"⟩, some ⟨none⟩⟩ = .ok none :=
  ⟨(parse_anchored_images_two_passes ⟨[⟨.oneCell, some ⟨some "1", some "5"⟩, some ⟨some (some "rId1")⟩⟩,
      ⟨.twoCell, some ⟨some "1", some "3"⟩, some ⟨some (some "rId2")⟩⟩]⟩
      ⟨.twoCell, some ⟨some "1", some "3"⟩, some ⟨none⟩⟩).1,
   (parse_anchored_images_two_passes ⟨[]⟩
      ⟨.twoCell, some ⟨some "1", some "3"⟩, some ⟨none⟩⟩).2 (by simp)⟩

/-- **C10** (confirmed).  An anchor whose `from` element lacks the `xdr:col`
child (resp. `xdr:row`) gets 0 recorded for that coordinate —
indistinguishable from an anchor explicitly at `<xdr:col>0</xdr:col>`
(resp. row 0) — and, since `column_letter_to_index "A" = 0`, such an anchor
passes the image-column filter when column `A` is requested. -/
theorem parse_missing_col_row_defaults_to_zero (k : AnchorKind)
    (rtext ctext emb : String) (r c : Int)
    (hr : pyInt rtext = some r) (hc : pyInt ctext = some c) :
    parseAnchorNode ⟨k, some ⟨none, some rtext⟩, some ⟨some (some emb)⟩⟩
      = .ok (some (r, 0, emb)) ∧
    parseAnchorNode ⟨k, some ⟨none, some rtext⟩, some ⟨some (some emb)⟩⟩
      = parseAnchorNode ⟨k, some ⟨some "0", some rtext⟩, some ⟨some (some emb)⟩⟩ ∧
    parseAnchorNode ⟨k, some ⟨some ctext, none⟩, some ⟨some (some emb)⟩⟩
      = .ok (some (0, c, emb)) ∧
    parseAnchorNode ⟨k, some ⟨some ctext, none⟩, some ⟨some (some emb)⟩⟩
      = parseAnchorNode ⟨k, some ⟨some ctext, some "0"⟩, some ⟨some (some emb)⟩⟩ ∧
    column_letter_to_index "A" = .ok 0 := by
  have h0 : pyInt "0" = some 0 := by decide
  refine ⟨?_, ?_, ?_, ?_, by decide⟩ <;>
    simp [parseAnchorNode, Option.getD, h0, hr, hc]

/-- **C10 witness**: the theorem applied at concrete texts `"4"`/`"7"` and
embed id `"rId1"`. -/
theorem parse_missing_col_row_defaults_to_zero_witness :
    parseAnchorNode ⟨.twoCell, some ⟨none, some "4"⟩, some ⟨some (some "rId1")⟩⟩
      = .ok (some (4, 0, "rId1")) ∧
    parseAnchorNode ⟨.twoCell, some ⟨some "7", none⟩, some ⟨some (some "rId1")⟩⟩
      = .ok (some (0, 7, "rId1")) :=
  ⟨(parse_missing_col_row_defaults_to_zero .twoCell "4" "7" "rId1" 4 7
      (by decide) (by decide)).1,
   (parse_missing_col_row_defaults_to_zero .twoCell "4" "7" "rId1" 4 7
      (by decide) (by decide)).2.2.1⟩

/-! ## Helper lemmas for the joiner -/

theorem capExceeded_none_eq (count : Nat) : capExceeded none count = false := rfl

theorem capExceeded_some_eq {m : Int} (hm : 0 < m) (count : Nat) :
    capExceeded (some m) count = decide (m < (count : Int)) := by
  show (decide (m ≠ 0) && decide (0 < m) && decide (m < (count : Int)))
    = decide (m < (count : Int))
  rw [decide_eq_true (by omega : m ≠ 0), decide_eq_true hm]
  simp

theorem joinLoop_ok_result {maxI : Option Int}
    {mk : AnchoredImage → ExtractedImageDetail} {l : List AnchoredImage} :
    ∀ {acc res}, joinLoop maxI mk l acc = .ok res → res = acc ++ l.map mk := by
  induction l with
  | nil =>
    intro acc res h
    simp only [joinLoop] at h
    injection h with h
    simp [← h]
  | cons ai rest ih =>
    intro acc res h
    simp only [joinLoop] at h
    by_cases hc : capExceeded maxI (acc ++ [mk ai]).length = true
    · rw [if_pos hc] at h
      exact Except.noConfusion h
    · rw [if_neg hc] at h
      have := ih h
      simp [this]

theorem joinLoop_some_ok {m : Int} (hm : 0 < m)
    (mk : AnchoredImage → ExtractedImageDetail) (l : List AnchoredImage) :
    ∀ acc, ((acc.length : Int) + l.length ≤ m) →
      joinLoop (some m) mk l acc = .ok (acc ++ l.map mk) := by
  induction l with
  | nil =>
    intro acc _
    simp [joinLoop]
  | cons ai rest ih =>
    intro acc hlen
    simp only [joinLoop]
    rw [capExceeded_some_eq hm]
    rw [if_neg (by
      simp only [decide_eq_true_eq, List.length_append, List.length_cons,
        List.length_nil, not_lt]
      simp only [List.length_cons] at hlen
      push_cast
      push_cast at hlen
      omega)]
    rw [ih (acc ++ [mk ai]) (by
      simp only [List.length_append, List.length_cons, List.length_nil]
      simp only [List.length_cons] at hlen
      push_cast
      push_cast at hlen
      omega)]
    simp

theorem joinLoop_some_err {m : Int} (hm : 0 < m)
    (mk : AnchoredImage → ExtractedImageDetail) (l : List AnchoredImage) :
    ∀ acc, ((acc.length : Int) ≤ m) → (m < (acc.length : Int) + l.length) →
      joinLoop (some m) mk l acc = .error .tooManyImages := by
  induction l with
  | nil =>
    intro acc hacc hlen
    simp only [List.length_nil, Nat.cast_zero, add_zero] at hlen
    omega
  | cons ai rest ih =>
    intro acc hacc hlen
    simp only [joinLoop]
    rw [capExceeded_some_eq hm]
    by_cases hover : m < (((acc ++ [mk ai]).length : Nat) : Int)
    · rw [if_pos (decide_eq_true hover)]
    · rw [if_neg (by simpa using hover)]
      refine ih (acc ++ [mk ai]) (by
        simp only [List.length_append, List.length_cons, List.length_nil] at hover ⊢
        push_cast at hover ⊢
        omega) (by
        simp only [List.length_append, List.length_cons, List.length_nil,
          List.length_cons] at hlen ⊢
        push_cast at hlen ⊢
        omega)

theorem extract_unfold {sheet : SheetData} {drawing : DrawingXml}
    {relMap : String → Option String} {media : String → List Nat}
    {imgL nameL : String} {maxI : Option Int} {ici nci : Nat}
    {anchors : List (Int × Int × String)}
    (h1 : column_letter_to_index imgL = .ok ici)
    (h2 : column_letter_to_index nameL = .ok nci)
    (h3 : _parse_anchored_images drawing = .ok anchors) :
    extract_images_details sheet drawing relMap media imgL nameL maxI
      = joinLoop maxI (mkDetail sheet nci media)
          (sortByRow ((buildAnchoredImages anchors relMap).filter
            (fun ai => decide (ai.col = (ici : Int))))) [] := by
  unfold extract_images_details
  rw [h1, h2, h3]
  rfl

theorem insertByRow_cons (x y : AnchoredImage) (ys : List AnchoredImage) :
    insertByRow x (y :: ys)
      = if y.row < x.row then y :: insertByRow x ys else x :: y :: ys := rfl

theorem insertByRow_filter (x : AnchoredImage) (s : List AnchoredImage) (r : Int) :
    (insertByRow x s).filter (fun a => decide (a.row = r))
      = if x.row = r then x :: s.filter (fun a => decide (a.row = r))
        else s.filter (fun a => decide (a.row = r)) := by
  induction s with
  | nil =>
    by_cases hx : x.row = r <;>
      simp [insertByRow, List.filter_cons, hx]
  | cons y ys ih =>
    by_cases hy : y.row < x.row
    · have hins : insertByRow x (y :: ys) = y :: insertByRow x ys := by
        rw [insertByRow_cons, if_pos hy]
      rw [hins, List.filter_cons, List.filter_cons]
      by_cases hyr : y.row = r
      · have hxr : ¬ x.row = r := by omega
        simp [hyr, hxr, ih]
      · simp [hyr, ih]
    · have hins : insertByRow x (y :: ys) = x :: y :: ys := by
        rw [insertByRow_cons, if_neg hy]
      rw [hins]
      by_cases hx : x.row = r <;> simp [List.filter_cons, hx]

theorem sortByRow_filter (l : List AnchoredImage) (r : Int) :
    (sortByRow l).filter (fun a => decide (a.row = r))
      = l.filter (fun a => decide (a.row = r)) := by
  induction l with
  | nil => rfl
  | cons x xs ih =>
    show (insertByRow x (sortByRow xs)).filter _ = _
    rw [insertByRow_filter]
    by_cases hx : x.row = r
    · rw [if_pos hx, ih, List.filter_cons, if_pos (by simp [hx])]
    · rw [if_neg hx, ih, List.filter_cons, if_neg (by simp [hx])]

theorem chain'_insertByRow {x : AnchoredImage} {s : List AnchoredImage}
    (h : List.Chain' (fun a b => a.row ≤ b.row) s) :
    List.Chain' (fun a b => a.row ≤ b.row) (insertByRow x s) := by
  induction s with
  | nil => simp [insertByRow]
  | cons y ys ih =>
    by_cases hy : y.row < x.row
    · have hins : insertByRow x (y :: ys) = y :: insertByRow x ys := by
        rw [insertByRow_cons, if_pos hy]
      rw [hins]
      have hys : List.Chain' (fun a b => a.row ≤ b.row) ys := h.tail
      refine List.chain'_cons'.mpr ⟨?_, ih hys⟩
      intro b hb
      cases ys with
      | nil =>
        simp [insertByRow] at hb
        subst hb
        omega
      | cons z zs =>
        by_cases hz : z.row < x.row
        · rw [insertByRow_cons, if_pos hz] at hb
          simp at hb
          subst hb
          exact (List.chain'_cons.mp h).1
        · rw [insertByRow_cons, if_neg hz] at hb
          simp at hb
          subst hb
          omega
    · have hins : insertByRow x (y :: ys) = x :: y :: ys := by
        rw [insertByRow_cons, if_neg hy]
      rw [hins]
      refine List.chain'_cons'.mpr ⟨?_, h⟩
      intro b hb
      simp at hb
      subst hb
      omega

theorem sortByRow_chain (l : List AnchoredImage) :
    List.Chain' (fun a b => a.row ≤ b.row) (sortByRow l) := by
  induction l with
  | nil => exact List.chain'_nil
  | cons x xs ih => exact chain'_insertByRow ih

theorem length_insertByRow (x : AnchoredImage) (s : List AnchoredImage) :
    (insertByRow x s).length = s.length + 1 := by
  induction s with
  | nil => rfl
  | cons y ys ih =>
    rw [insertByRow_cons]
    by_cases hy : y.row < x.row
    · rw [if_pos hy]
      simp [ih]
    · rw [if_neg hy]
      simp

theorem length_sortByRow (l : List AnchoredImage) :
    (sortByRow l).length = l.length := by
  induction l with
  | nil => rfl
  | cons x xs ih =>
    show (insertByRow x (sortByRow xs)).length = _
    rw [length_insertByRow, ih]
    rfl

/-! ## Claim C3: filter, sort and stability of the joiner output -/

/-- **C3** (confirmed).  When extraction succeeds, the output is exactly the
anchored images whose zero-based column equals the image-column index
(anchors in any other column are dropped without error), mapped to records,
ordered ascending by row (`Chain'`), with ties resolved by original anchor
order: for every row value `r`, the output records at 1-based row `r` are
exactly the images anchored at zero-based row `r - 1` in the image column,
in their original order (the stable-sort characterization). -/
theorem extract_filters_sorts_stably (sheet : SheetData) (drawing : DrawingXml)
    (relMap : String → Option String) (media : String → List Nat)
    (imgL nameL : String) (maxI : Option Int) (ici nci : Nat)
    (anchors : List (Int × Int × String)) (res : List ExtractedImageDetail)
    (r : Int)
    (h1 : column_letter_to_index imgL = .ok ici)
    (h2 : column_letter_to_index nameL = .ok nci)
    (h3 : _parse_anchored_images drawing = .ok anchors)
    (h4 : extract_images_details sheet drawing relMap media imgL nameL maxI
            = .ok res) :
    res = (sortByRow ((buildAnchoredImages anchors relMap).filter
        (fun ai => decide (ai.col = (ici : Int))))).map (mkDetail sheet nci media) ∧
    List.Chain' (fun a b => a.row ≤ b.row) res ∧
    res.filter (fun d => decide (d.row = r))
      = (((buildAnchoredImages anchors relMap).filter
            (fun ai => decide (ai.col = (ici : Int)))).filter
            (fun ai => decide (ai.row = r - 1))).map (mkDetail sheet nci media) ∧
    res.length = ((buildAnchoredImages anchors relMap).filter
        (fun ai => decide (ai.col = (ici : Int)))).length := by
  rw [extract_unfold h1 h2 h3] at h4
  have hres := joinLoop_ok_result h4
  rw [List.nil_append] at hres
  refine ⟨hres, ?_, ?_, ?_⟩
  · rw [hres]
    refine (List.chain'_map (mkDetail sheet nci media)).mpr
      ((sortByRow_chain _).imp ?_)
    intro a b hab
    show (mkDetail sheet nci media a).row ≤ (mkDetail sheet nci media b).row
    simp only [mkDetail]
    omega
  · rw [hres, List.filter_map]
    have hcomp : ((fun d => decide (d.row = r)) ∘ mkDetail sheet nci media)
        = fun ai => decide (ai.row + 1 = r) := rfl
    rw [hcomp]
    have hiff : (sortByRow ((buildAnchoredImages anchors relMap).filter
          (fun ai => decide (ai.col = (ici : Int))))).filter
          (fun ai => decide (ai.row + 1 = r))
        = (sortByRow ((buildAnchoredImages anchors relMap).filter
          (fun ai => decide (ai.col = (ici : Int))))).filter
          (fun ai => decide (ai.row = r - 1)) :=
      List.filter_congr (fun a _ => by rw [decide_eq_decide]; omega)
    rw [hiff, sortByRow_filter]
  · rw [hres, List.length_map, length_sortByRow]

/-- **C3 witness**: the theorem at the claim's example — three anchors, two
in column B (Excel rows 3 and 7) and one in column D (row 5), with
`imageColumn = "B"`, `nameColumn = "C"`: exactly 2 records, ordered row 3
then row 7, the column-D anchor absent. -/
theorem extract_filters_sorts_stably_witness :
    ([⟨3, "Sheet1", "Widget", [1]⟩, ⟨7, "Sheet1", "image_row7", [3]⟩]
        : List ExtractedImageDetail)
      = (sortByRow ((buildAnchoredImages exampleAnchors exampleRelMap).filter
          (fun ai => decide (ai.col = ((1 : Nat) : Int))))).map
          (mkDetail exampleSheet 2 exampleMedia) ∧
    List.Chain' (fun a b => a.row ≤ b.row)
      ([⟨3, "Sheet1", "Widget", [1]⟩, ⟨7, "Sheet1", "image_row7", [3]⟩]
        : List ExtractedImageDetail) ∧
    ([⟨3, "Sheet1", "Widget", [1]⟩, ⟨7, "Sheet1", "image_row7", [3]⟩]
        : List ExtractedImageDetail).filter (fun d => decide (d.row = 3))
      = (((buildAnchoredImages exampleAnchors exampleRelMap).filter
            (fun ai => decide (ai.col = ((1 : Nat) : Int)))).filter
            (fun ai => decide (ai.row = 3 - 1))).map (mkDetail exampleSheet 2 exampleMedia) ∧
    ([⟨3, "Sheet1", "Widget", [1]⟩, ⟨7, "Sheet1", "image_row7", [3]⟩]
        : List ExtractedImageDetail).length
      = ((buildAnchoredImages exampleAnchors exampleRelMap).filter
          (fun ai => decide (ai.col = ((1 : Nat) : Int)))).length :=
  extract_filters_sorts_stably exampleSheet exampleDrawing exampleRelMap
    exampleMedia "B" "C" none 1 2 exampleAnchors
    [⟨3, "Sheet1", "Widget", [1]⟩, ⟨7, "Sheet1", "image_row7", [3]⟩] 3
    (by decide) (by decide) (by decide) (by decide)

/-! ## Claim C2: cap enforcement and its off-by-one -/

/-- **C2** (confirmed).  With a positive cap `m`: when at most `m` anchors
qualify, extraction succeeds with all of them; when more than `m` qualify,
extraction fails with `TooManyImages`, and the failure point is exactly
after the `(m+1)`-th append — the result loop already fails on the first
`m + 1` sorted anchors alone, while it succeeds (producing `m` records) on
the first `m`. -/
theorem extract_cap_off_by_one (sheet : SheetData) (drawing : DrawingXml)
    (relMap : String → Option String) (media : String → List Nat)
    (imgL nameL : String) (m : Int) (ici nci : Nat)
    (anchors : List (Int × Int × String))
    (h1 : column_letter_to_index imgL = .ok ici)
    (h2 : column_letter_to_index nameL = .ok nci)
    (h3 : _parse_anchored_images drawing = .ok anchors)
    (hm : 0 < m) :
    (((sortByRow ((buildAnchoredImages anchors relMap).filter
          (fun ai => decide (ai.col = (ici : Int))))).length : Int) ≤ m →
      extract_images_details sheet drawing relMap media imgL nameL (some m)
        = .ok ((sortByRow ((buildAnchoredImages anchors relMap).filter
            (fun ai => decide (ai.col = (ici : Int))))).map (mkDetail sheet nci media))) ∧
    (m < ((sortByRow ((buildAnchoredImages anchors relMap).filter
          (fun ai => decide (ai.col = (ici : Int))))).length : Int) →
      extract_images_details sheet drawing relMap media imgL nameL (some m)
          = .error .tooManyImages ∧
      joinLoop (some m) (mkDetail sheet nci media)
          ((sortByRow ((buildAnchoredImages anchors relMap).filter
            (fun ai => decide (ai.col = (ici : Int))))).take (m.toNat + 1)) []
          = .error .tooManyImages ∧
      joinLoop (some m) (mkDetail sheet nci media)
          ((sortByRow ((buildAnchoredImages anchors relMap).filter
            (fun ai => decide (ai.col = (ici : Int))))).take m.toNat) []
          = .ok (((sortByRow ((buildAnchoredImages anchors relMap).filter
              (fun ai => decide (ai.col = (ici : Int))))).take m.toNat).map
              (mkDetail sheet nci media))) := by
  constructor
  · intro hle
    rw [extract_unfold h1 h2 h3]
    have := joinLoop_some_ok hm (mkDetail sheet nci media)
      (sortByRow ((buildAnchoredImages anchors relMap).filter
        (fun ai => decide (ai.col = (ici : Int))))) []
      (by simpa using hle)
    simpa using this
  · intro hgt
    refine ⟨?_, ?_, ?_⟩
    · rw [extract_unfold h1 h2 h3]
      exact joinLoop_some_err hm _ _ [] (by simp; omega) (by simpa using hgt)
    · apply joinLoop_some_err hm _ _ []
      · simp
        omega
      · have h5 := List.length_take (m.toNat + 1)
          (sortByRow ((buildAnchoredImages anchors relMap).filter
            (fun ai => decide (ai.col = (ici : Int)))))
        simp only [List.length_nil, Nat.cast_zero, zero_add]
        rw [h5]
        omega
    · have h6 := List.length_take_le m.toNat
        (sortByRow ((buildAnchoredImages anchors relMap).filter
          (fun ai => decide (ai.col = (ici : Int)))))
      have := joinLoop_some_ok hm (mkDetail sheet nci media)
        ((sortByRow ((buildAnchoredImages anchors relMap).filter
          (fun ai => decide (ai.col = (ici : Int))))).take m.toNat) []
        (by simp; omega)
      simpa using this

/-- **C2 witness**: the theorem at a package with 3 qualifying column-B
anchors — `maxImages = 2` fails with `TooManyImages`; `maxImages = 3`
succeeds with exactly 3 records. -/
theorem extract_cap_off_by_one_witness :
    extract_images_details exampleSheet exampleDrawingB3 exampleRelMap
        exampleMedia "B" "C" (some 2) = .error .tooManyImages ∧
    extract_images_details exampleSheet exampleDrawingB3 exampleRelMap
        exampleMedia "B" "C" (some 3)
      = .ok [⟨3, "Sheet1", "Widget", [1]⟩, ⟨5, "Sheet1", "image_row5", [2]⟩,
             ⟨7, "Sheet1", "image_row7", [3]⟩] :=
  ⟨((extract_cap_off_by_one exampleSheet exampleDrawingB3 exampleRelMap
      exampleMedia "B" "C" 2 1 2 exampleAnchorsB3
      (by decide) (by decide) (by decide) (by decide)).2 (by decide)).1,
   ((extract_cap_off_by_one exampleSheet exampleDrawingB3 exampleRelMap
      exampleMedia "B" "C" 3 1 2 exampleAnchorsB3
      (by decide) (by decide) (by decide) (by decide)).1 (by decide)).trans
     (by decide)⟩

/-! ## Claim C7: the name cell and the image_row fallback -/

/-- **C7 counterexample**: a name cell holding a non-`None` value whose
string form is empty (`str()` of an empty-string cell value, e.g. a cached
empty formula result).  The code emits it verbatim, so the record's
`nameRaw` **is** the empty string, contradicting the claim's invariant. -/
theorem extract_name_raw_empty_string_cell :
    extract_images_details ⟨"Sheet1", fun r c => if r = 3 ∧ c = 3 then some "" else none⟩
        ⟨[⟨.twoCell, some ⟨some "1", some "2"⟩, some ⟨some (some "rId1")⟩⟩]⟩
        (fun e => if e = "rId1" then some "xl/media/image1.png" else none)
        (fun p => if p = "xl/media/image1.png" then [1] else [])
        "B" "C" none
      = .ok [⟨3, "Sheet1", "", [1]⟩] ∧
    (⟨3, "Sheet1", "", [1]⟩ : ExtractedImageDetail).name_raw = "" := by
  refine ⟨by decide, rfl⟩

/-- **C7 amended** (corrected).  For every record of a successful
extraction, `nameRaw` is the verbatim string form of the name-column cell at
the record's 1-based row when that cell's value is present (not `None`), and
the synthesized `"image_row<N>"` when the cell is `None`; `nameRaw` is
nonempty **provided** every present cell value has a nonempty string form —
a present cell whose string form is empty yields an empty `nameRaw` (see
the counterexample). -/
theorem extract_name_raw_fallback (sheet : SheetData) (drawing : DrawingXml)
    (relMap : String → Option String) (media : String → List Nat)
    (imgL nameL : String) (maxI : Option Int) (ici nci : Nat)
    (anchors : List (Int × Int × String)) (res : List ExtractedImageDetail)
    (d : ExtractedImageDetail)
    (h1 : column_letter_to_index imgL = .ok ici)
    (h2 : column_letter_to_index nameL = .ok nci)
    (h3 : _parse_anchored_images drawing = .ok anchors)
    (h4 : extract_images_details sheet drawing relMap media imgL nameL maxI
            = .ok res)
    (hd : d ∈ res)
    (hne : ∀ r c v, sheet.cells r c = some v → v ≠ "") :
    d.name_raw = (match sheet.cells d.row ((nci : Int) + 1) with
      | some v => v
      | none => "image_row" ++ toString d.row) ∧
    d.name_raw ≠ "" := by
  rw [extract_unfold h1 h2 h3] at h4
  have hres := joinLoop_ok_result h4
  rw [List.nil_append] at hres
  subst hres
  obtain ⟨ai, _, rfl⟩ := List.mem_map.mp hd
  constructor
  · rfl
  · show (mkDetail sheet nci media ai).name_raw ≠ ""
    cases hcell : sheet.cells (ai.row + 1) ((nci : Int) + 1) with
    | some v =>
      have hv : (mkDetail sheet nci media ai).name_raw = v := by
        simp [mkDetail, hcell]
      rw [hv]
      exact hne _ _ _ hcell
    | none =>
      have hv : (mkDetail sheet nci media ai).name_raw
          = "image_row" ++ toString (ai.row + 1) := by
        simp [mkDetail, hcell]
      rw [hv]
      intro hemp
      have hdata := congrArg String.data hemp
      rw [string_data_append] at hdata
      simp at hdata

/-- **C7 amended witness**: the theorem applied to the example package at
the record of row 3 (whose name cell holds `"Widget"`). -/
theorem extract_name_raw_fallback_witness :
    (⟨3, "Sheet1", "Widget", [1]⟩ : ExtractedImageDetail).name_raw
      = (match exampleSheet.cells
            (⟨3, "Sheet1", "Widget", [1]⟩ : ExtractedImageDetail).row
            (((2 : Nat) : Int) + 1) with
         | some v => v
         | none => "image_row"
             ++ toString (⟨3, "Sheet1", "Widget", [1]⟩ : ExtractedImageDetail).row) ∧
    (⟨3, "Sheet1", "Widget", [1]⟩ : ExtractedImageDetail).name_raw ≠ "" :=
  extract_name_raw_fallback exampleSheet exampleDrawing exampleRelMap
    exampleMedia "B" "C" none 1 2 exampleAnchors
    [⟨3, "Sheet1", "Widget", [1]⟩, ⟨7, "Sheet1", "image_row7", [3]⟩]
    ⟨3, "Sheet1", "Widget", [1]⟩
    (by decide) (by decide) (by decide) (by decide) (by decide)
    (by
      intro r c v h
      simp only [exampleSheet] at h
      by_cases hrc : r = 3 ∧ c = 3
      · rw [if_pos hrc] at h
        injection h with h
        rw [← h]
        decide
      · rw [if_neg hrc] at h
        exact Option.noConfusion h)

/-! ## Claim C9: filename sanitation -/

/-- **C9 counterexample**: the claim's example asserts that
`"Part #7 / Rev A.png"` sanitizes to `"part_7_rev_a"`, but the routine does
not strip `#` (it is not one of the illegal characters) and does not remove
a pre-existing `.png` extension, so the actual result is
`"part_#7_rev_a.png"`. -/
theorem normalize_example_value :
    ImageProcessor.normalize "Part #7 / Rev A.png" = "part_#7_rev_a.png" ∧
    ImageProcessor.normalize "Part #7 / Rev A.png" ≠ "part_7_rev_a" := by
  constructor
  · decide
  · decide

/-- **C9 amended** (corrected).  The sanitation routine trims, replaces
spaces with underscores, strips the illegal characters, collapses repeated
underscores, lowercases, truncates to at most 80 characters and falls back
to the placeholder `"image"` when empty — so every output is nonempty, at
most 80 characters, free of illegal characters, spaces, uppercase letters
and repeated underscores.  The claim's example however yields
`"part_#7_rev_a.png"` (see the counterexample), not `"part_7_rev_a"`. -/
theorem normalize_sanitizes (s : String) (c : Char)
    (hc : c ∈ (ImageProcessor.normalize s).data) :
    (ImageProcessor.normalize s).data.length ≤ 80 ∧
    ImageProcessor.normalize s ≠ "" ∧
    isIllegalChar c = false ∧ ¬ c = ' ' ∧ isUpperAlpha c = false ∧
    List.Chain' (fun a b => ¬(a = '_' ∧ b = '_')) (ImageProcessor.normalize s).data := by
  have himp : ∀ a b : Char, ¬(a = '_' ∧ b = '_') →
      ¬(pyToLower a = '_' ∧ pyToLower b = '_') := by
    rintro a b hR ⟨ha, hb⟩
    apply hR
    constructor
    · by_contra hna
      exact pyToLower_ne_of_code (by decide) hna ha
    · by_contra hnb
      exact pyToLower_ne_of_code (by decide) hnb hb
  set n2 := List.filter (fun c => !isIllegalChar c)
      (List.map (fun c => if c = ' ' then '_' else c) (pyStripL s.data)) with hn2
  set n3 := collapseUnderscores n2 with hn3
  set n4 := List.map pyToLower n3 with hn4
  set n5 := List.take 80 n4 with hn5
  have hdef : ImageProcessor.normalize s = if n5.isEmpty then "image" else ⟨n5⟩ := rfl
  have hchain4 : List.Chain' (fun a b => ¬(a = '_' ∧ b = '_')) n4 := by
    rw [hn4]
    exact (List.chain'_map pyToLower).mpr
      ((collapseAux_noDouble n2).1.imp himp)
  rw [hdef] at hc ⊢
  by_cases hE : n5.isEmpty
  · rw [if_pos hE] at hc ⊢
    have hall : ∀ x ∈ ("image" : String).data,
        isIllegalChar x = false ∧ ¬ x = ' ' ∧ isUpperAlpha x = false := by decide
    obtain ⟨p1, p2, p3⟩ := hall c hc
    refine ⟨by decide, by decide, p1, p2, p3, ?_⟩
    show List.Chain' _ ['i', 'm', 'a', 'g', 'e']
    simp only [List.chain'_cons, List.chain'_singleton, and_true]
    decide
  · rw [if_neg hE] at hc ⊢
    have hc5 : c ∈ n5 := hc
    have hc4 : c ∈ n4 := List.mem_of_mem_take (hn5 ▸ hc5)
    obtain ⟨d, hd3, hcd⟩ := List.mem_map.mp (hn4 ▸ hc4)
    have hd3b : d ∈ collapseUnderscores n2 := hn3 ▸ hd3
    have hd2 : d ∈ n2 := mem_collapseAux false n2 hd3b
    have hdfacts := List.mem_filter.mp (hn2 ▸ hd2)
    have hdill : isIllegalChar d = false := by
      have := hdfacts.2
      rwa [Bool.not_eq_true'] at this
    have hdsp : ¬ d = ' ' := by
      obtain ⟨e, _, hde⟩ := List.mem_map.mp hdfacts.1
      by_cases he : e = ' '
      · rw [← hde, if_pos he]
        decide
      · rw [← hde, if_neg he]
        exact he
    refine ⟨?_, ?_, ?_, ?_, ?_, ?_⟩
    · rw [hn5]
      exact List.length_take_le 80 n4
    · intro hemp
      have : n5 = [] := congrArg String.data hemp
      rw [List.isEmpty_iff] at hE
      exact hE this
    · rw [← hcd]
      exact isIllegalChar_pyToLower hdill
    · rw [← hcd]
      exact pyToLower_ne_of_code (by decide) hdsp
    · rw [← hcd]
      exact pyToLower_not_upper d
    · show List.Chain' _ n5
      rw [hn5]
      exact hchain4.take 80

/-- **C9 amended witness**: the amended theorem applied at the claim's
example input and the character `'p'` of its output. -/
theorem normalize_sanitizes_witness :
    'p' ∈ (ImageProcessor.normalize "Part #7 / Rev A.png").data ∧
    ((ImageProcessor.normalize "Part #7 / Rev A.png").data.length ≤ 80 ∧
     ImageProcessor.normalize "Part #7 / Rev A.png" ≠ "" ∧
     isIllegalChar 'p' = false ∧ ¬ 'p' = ' ' ∧ isUpperAlpha 'p' = false ∧
     List.Chain' (fun a b => ¬(a = '_' ∧ b = '_'))
       (ImageProcessor.normalize "Part #7 / Rev A.png").data) :=
  ⟨by decide, normalize_sanitizes "Part #7 / Rev A.png" 'p' (by decide)⟩

/-! ## Claims C8 and C6: column addressing -/

/-- **C8** (confirmed).  For every valid letter string of length 1–2
(uppercase or lowercase), `column_letter_to_index` returns the bijective
base-26 value of the string (A=1) minus 1, i.e. the inverse of the standard
spreadsheet column-naming scheme (`"A"→0`, `"Z"→25`, `"AA"→26`, `"AZ"→51`,
`"BA"→52`). -/
theorem column_letter_to_index_is_standard (s : String)
    (h1 : 1 ≤ s.data.length) (h2 : s.data.length ≤ 2)
    (h3 : ∀ c ∈ s.data, isAsciiLetter c = true) :
    column_letter_to_index s = .ok (standardColumnIndex s) := by
  have hstrip : pyStrip s = s := by
    unfold pyStrip
    rw [pyStripL_eq_self (fun c hc => letter_not_whitespace (h3 c hc))]
  unfold column_letter_to_index
  rw [hstrip]
  have hlen : (s.data.map pyToUpper).length = s.data.length := List.length_map _ _
  have hup : (s.data.map pyToUpper).all isUpperAlpha = true := by
    rw [List.all_eq_true]
    intro c hc
    rcases List.mem_map.mp hc with ⟨d, hd, rfl⟩
    exact pyToUpper_upper (h3 d hd)
  unfold pyUpper column_index_from_string
  rw [if_pos (by rw [hlen]; exact ⟨h1, by omega, hup⟩)]
  rfl

/-- **C8 witness**: the theorem instantiated at `"AZ"`, together with the
four other concrete values the claim lists. -/
theorem column_letter_to_index_is_standard_witness :
    column_letter_to_index "AZ" = .ok (standardColumnIndex "AZ") ∧
    standardColumnIndex "AZ" = 51 ∧
    column_letter_to_index "A" = .ok 0 ∧
    column_letter_to_index "Z" = .ok 25 ∧
    column_letter_to_index "AA" = .ok 26 ∧
    column_letter_to_index "BA" = .ok 52 ∧
    column_letter_to_index "az" = .ok 51 :=
  ⟨column_letter_to_index_is_standard "AZ" (by decide) (by decide) (by decide),
   by decide, by decide, by decide, by decide, by decide, by decide⟩

/-- **C6 counterexample**: the claim asserts `columnLetterToIndex` fails with
`InvalidColumn` for `"ABC"`, but `openpyxl.utils.column_index_from_string`
accepts every string of one to three letters (columns `A`–`ZZZ`), so the
code returns index 730 for `"ABC"` instead of failing. -/
theorem column_letter_to_index_ABC_ok :
    column_letter_to_index "ABC" = .ok 730 ∧
    column_letter_to_index "ABC" ≠ .error ExtractError.invalidColumn := by
  constructor
  · decide
  · decide

/-- **C6 amended** (corrected).  `columnLetterToIndex` fails with
`InvalidColumn` for every string that, after trimming, is empty, contains a
non-letter character, or exceeds **three** characters; in particular it
fails for `""`, `"1"` and `"A1"`, but accepts `"ABC"` (three letters,
returning 730). -/
theorem column_letter_to_index_invalid (s : String)
    (h : pyStripL s.data = [] ∨ (∃ c ∈ pyStripL s.data, isAsciiLetter c = false) ∨
         3 < (pyStripL s.data).length) :
    column_letter_to_index s = .error ExtractError.invalidColumn := by
  unfold column_letter_to_index pyStrip pyUpper column_index_from_string
  rw [if_neg]
  · rfl
  · intro ⟨g1, g2, g3⟩
    simp only [String.data] at g1 g2 g3
    rcases h with he | ⟨c, hc, hcl⟩ | hlong
    · rw [he] at g1
      simp at g1
    · have : isUpperAlpha (pyToUpper c) = true := by
        rw [List.all_eq_true] at g3
        exact g3 _ (List.mem_map.mpr ⟨c, hc, rfl⟩)
      have hnu : isUpperAlpha c = false := by
        rw [Bool.eq_false_iff] at hcl ⊢
        intro hx
        exact hcl (by simp [isAsciiLetter, hx])
      have hnl : isLowerAlpha c = false := by
        rw [Bool.eq_false_iff] at hcl ⊢
        intro hx
        exact hcl (by simp [isAsciiLetter, hx])
      rw [pyToUpper_of_not_lower hnl, hnu] at this
      exact Bool.false_ne_true this
    · rw [List.length_map] at g2
      omega

/-- **C6 amended witness**: the amended theorem applied at `"A1"`, plus the
other two failing inputs the claim lists. -/
theorem column_letter_to_index_invalid_witness :
    column_letter_to_index "A1" = .error ExtractError.invalidColumn ∧
    column_letter_to_index "" = .error ExtractError.invalidColumn ∧
    column_letter_to_index "1" = .error ExtractError.invalidColumn :=
  ⟨column_letter_to_index_invalid "A1"
      (Or.inr (Or.inl ⟨'1', by decide, by decide⟩)),
   by decide, by decide⟩

/-! ## Claim C1: relationship target resolution -/

theorem dropWhile_append_of_all {p : α → Bool} {l₁ l₂ : List α}
    (h : ∀ a ∈ l₁, p a = true) :
    (l₁ ++ l₂).dropWhile p = l₂.dropWhile p := by
  induction l₁ with
  | nil => rfl
  | cons a t ih =>
    have ha := h a (List.mem_cons_self a t)
    rw [List.cons_append, List.dropWhile_cons, ha]
    simpa using ih (fun x hx => h x (List.mem_cons_of_mem a hx))

/-- `posixpath.dirname` of `A ++ "/" ++ B` is `A` whenever `B` is a nonempty
final component without slashes and `A` is nonempty and has no trailing
slash. -/
theorem posixDirnameL_append_slash {A B : List Char} (hA : A ≠ [])
    (hAl : A.getLast? ≠ some '/') (hBs : ∀ c ∈ B, ¬ c = '/') :
    posixDirnameL (A ++ '/' :: B) = A := by
  obtain ⟨c, rest, hc⟩ : ∃ c rest, A.reverse = c :: rest := by
    cases hAr : A.reverse with
    | nil => exact absurd (by simpa using congrArg List.reverse hAr) hA
    | cons c rest => exact ⟨c, rest, rfl⟩
  have hcn : ¬ c = '/' := by
    intro h
    apply hAl
    rw [← List.head?_reverse, hc, h]
    rfl
  have hrev : (A ++ '/' :: B).reverse = B.reverse ++ '/' :: A.reverse := by
    rw [List.reverse_append, List.reverse_cons, List.append_assoc]
    simp
  have hdrop : (A ++ '/' :: B).reverse.dropWhile (fun d => !decide (d = '/'))
      = '/' :: A.reverse := by
    rw [hrev, dropWhile_append_of_all (by
      intro a ha
      simp only [Bool.not_eq_true']
      simpa using hBs a (List.mem_reverse.mp ha))]
    rw [List.dropWhile_cons, if_neg (by decide)]
  have hall : (('/' :: A.reverse).all (fun d => decide (d = '/'))) ≠ true := by
    rw [hc]
    simp [List.all_cons, hcn]
  have hdrop2 : ('/' :: A.reverse).dropWhile (fun d => decide (d = '/')) = c :: rest := by
    rw [List.dropWhile_cons, if_pos (by decide), hc, List.dropWhile_cons,
      if_neg (by simpa using hcn)]
  simp only [posixDirnameL]
  rw [hdrop, if_neg (by simp), if_neg hall, hdrop2, ← hc, List.reverse_reverse]

/-- **C1** (confirmed).  For every rels-file path of the form
`base ++ "/_rels/" ++ name` (with `base` the directory two levels up — the
parent of the `_rels` directory — nonempty and without a trailing slash, and
`name` a nonempty slash-free file name) and every target `t`,
`_resolve_rel_target` equals the normalized join (collapsing `..` segments)
of `t` onto `base`. -/
theorem resolve_rel_target_two_levels_up (base name target : String)
    (hb : base.data ≠ []) (hbl : base.data.getLast? ≠ some '/')
    (hns : ∀ c ∈ name.data, ¬ c = '/') :
    _resolve_rel_target (base ++ "/_rels/" ++ name) target
      = posixNormpath (posixJoin base target) := by
  have key : posixDirname (posixDirname (base ++ "/_rels/" ++ name)) = base := by
    have e1 : (base ++ "/_rels/" ++ name).data
        = (base.data ++ ['/', '_', 'r', 'e', 'l', 's']) ++ '/' :: name.data := by
      rw [string_data_append, string_data_append]
      show base.data ++ ['/', '_', 'r', 'e', 'l', 's', '/'] ++ name.data = _
      simp
    have e2 : posixDirname (base ++ "/_rels/" ++ name)
        = ⟨base.data ++ ['/', '_', 'r', 'e', 'l', 's']⟩ := by
      unfold posixDirname
      rw [e1, posixDirnameL_append_slash (by simp) (by
        rw [List.getLast?_append_of_ne_nil _ (by simp)]
        decide) hns]
    rw [e2]
    unfold posixDirname
    show String.mk (posixDirnameL (base.data ++ '/' :: ['_', 'r', 'e', 'l', 's'])) = base
    rw [posixDirnameL_append_slash hb hbl (by decide)]
  unfold _resolve_rel_target
  rw [key]

/-- **C1 witness**: the theorem applied at the claim's concrete example —
resolving `"../media/image1.png"` from `"xl/worksheets/_rels/sheet1.xml.rels"`
yields `"xl/media/image1.png"`. -/
theorem resolve_rel_target_two_levels_up_witness :
    _resolve_rel_target ("xl/worksheets" ++ "/_rels/" ++ "sheet1.xml.rels") "../media/image1.png"
      = posixNormpath (posixJoin "xl/worksheets" "../media/image1.png") ∧
    _resolve_rel_target "xl/worksheets/_rels/sheet1.xml.rels" "../media/image1.png"
      = "xl/media/image1.png" :=
  ⟨resolve_rel_target_two_levels_up "xl/worksheets" "sheet1.xml.rels" "../media/image1.png"
      (by decide) (by decide) (by decide),
   by decide⟩
